import Mathlib

/-!
# Shallow embedding of the c3bottles drop point model

This file embeds the drop point model of `src/c3bottles/model/drop_point.py`,
the statistics helper of `src/c3bottles/lib/statistics.py` and the configuration
defaults of `src/config.default.py` into Lean, and proves properties of the
status resolution, visit priority, history and removal logic.

Python `datetime` values are represented as rational numbers (seconds); the
difference of two datetimes via `total_seconds()` is then plain subtraction.
Python float arithmetic is represented by exact rational arithmetic.
`round(x, 2)` is represented by `round2` below (Python rounds half to even at
binary-float precision; no property proved here depends on the behaviour at an
exact half-way tie, so a floor-based rounding represents it faithfully).

The modules `report.py`, `visit.py` and `location.py` are not part of the
sources; the constants and derived values they provide (`Report.states`,
`Visit.actions`, `Report.get_weight`) are modelled from the spec as parameters,
as noted on each definition concerned.
-/

/-- A point-in-time placement of a drop point (class `Location`).  Only the
`time` column matters for the logic embedded here; `ident` stands for the
opaque payload (description, lat, lng, level). -/
structure Location where
  time : ℚ
  ident : Nat
deriving DecidableEq

/-- Modelled from the spec: a report record (class `Report`, `report.py` not in
the sources).  `state` is the reported status value and `weight` is the value
of `Report.get_weight()`, the derived non-negative severity weight. -/
structure Report where
  time : ℚ
  state : String
  weight : ℚ
deriving DecidableEq

instance : Inhabited Report := ⟨⟨0, "", 0⟩⟩

/-- Modelled from the spec: a visit record (class `Visit`, `visit.py` not in
the sources).  `action` is the action value of the visit. -/
structure Visit where
  time : ℚ
  action : String
deriving DecidableEq

/-- The drop point row together with its three related histories
(class `DropPoint`): creation time `time`, optional removal time `removed`,
and the `locations`, `reports` and `visits` relationships (kept here in
insertion order; the query methods below apply the orderings the Python
code requests from the database). -/
structure DropPoint where
  number : Nat := 1
  time : ℚ
  removed : Option ℚ := none
  locations : List Location := []
  reports : List Report := []
  visits : List Visit := []
deriving DecidableEq

/-- The configuration options read via `c3bottles.config.get`, with the
defaults used by the code and documented in `src/config.default.py`. -/
structure Config where
  BASE_VISIT_INTERVAL : ℚ := 120
  DEFAULT_VISIT_PRIORITY : ℚ := 1
deriving DecidableEq

/-! ## Stable sorting by a rational key

SQLAlchemy `order_by(... .desc())` queries and Python's stable `sorted` are
represented by an insertion sort that is stable: records with equal keys stay
in the underlying (insertion) order.  Python's `sorted(..., reverse=True)` is
stable in exactly this sense. -/

/-- Insert `x` into `l` before the first element whose key is not greater than
`x`'s key (descending order, stable: `x` goes in front of equal keys because
elements already in `l` come later in the original input). -/
def insertDescBy (f : β → ℚ) (x : β) : List β → List β
  | [] => [x]
  | y :: ys => if f y ≤ f x then x :: y :: ys else y :: insertDescBy f x ys

/-- Stable sort by descending key. -/
def sortDescBy (f : β → ℚ) : List β → List β
  | [] => []
  | x :: xs => insertDescBy f x (sortDescBy f xs)

/-- Insert `x` into `l` before the first element whose key is not smaller than
`x`'s key (ascending order, stable). -/
def insertAscBy (f : β → ℚ) (x : β) : List β → List β
  | [] => [x]
  | y :: ys => if f x ≤ f y then x :: y :: ys else y :: insertAscBy f x ys

/-- Stable sort by ascending key. -/
def sortAscBy (f : β → ℚ) : List β → List β
  | [] => []
  | x :: xs => insertAscBy f x (sortAscBy f xs)

/-! ## Query methods of `DropPoint` -/

/-- The `locations` relationship is declared with `order_by="Location.time"`:
the list the Python code sees is the ascending-by-time ordering. -/
def locationsOrdered (dp : DropPoint) : List Location :=
  sortAscBy Location.time dp.locations

/-- Embeds `DropPoint.get_current_location`: `self.locations[-1] if self.locations
else None`. -/
def get_current_location (dp : DropPoint) : Option Location :=
  (locationsOrdered dp).getLast?

/-- Embeds `DropPoint.get_last_report`: reports ordered by time descending, first. -/
def get_last_report (dp : DropPoint) : Option Report :=
  (sortDescBy Report.time dp.reports).head?

/-- Embeds `DropPoint.get_last_visit`: visits ordered by time descending, first. -/
def get_last_visit (dp : DropPoint) : Option Visit :=
  (sortDescBy Visit.time dp.visits).head?

/-- Embeds `DropPoint.get_new_reports`: the reports strictly newer than the last
visit (all reports if there is no visit), ordered by time descending. -/
def get_new_reports (dp : DropPoint) : List Report :=
  match get_last_visit dp with
  | some v => sortDescBy Report.time (dp.reports.filter (fun r => decide (v.time < r.time)))
  | none => sortDescBy Report.time dp.reports

/-- The body of the `for visit in visits:` loop in `DropPoint.get_last_state`:
return `serviced` (i.e. `Report.states[-1]`) at the first visit whose action is
the emptying action (`Visit.actions[0]`), else fall through to `fallback`
(the last report's state). -/
def stateVisitLoop (emptyAction serviced fallback : String) : List Visit → String
  | [] => fallback
  | v :: rest =>
    if v.action == emptyAction then serviced
    else stateVisitLoop emptyAction serviced fallback rest

/-- Embeds `DropPoint.get_last_state`.  The module-level sequences `Report.states`
and `Visit.actions` live in `report.py`/`visit.py`, which are not in the
sources; they are passed as parameters (the spec: index 1 of the statuses is
the default state, the last status is the serviced state, action index 0 is
the emptying action).  `states.getD 1 ""`/`states.getLastD ""`/
`actions.getD 0 ""` embed the Python index accesses `Report.states[1]`,
`Report.states[-1]` and `Visit.actions[0]`. -/
def get_last_state (states actions : List String) (dp : DropPoint) : String :=
  match get_last_report dp, get_last_visit dp with
  | some r, some v =>
    if r.time < v.time then
      stateVisitLoop (actions.getD 0 "") (states.getLastD "") r.state
        (sortDescBy Visit.time (dp.visits.filter (fun vv => decide (r.time < vv.time))))
    else r.state
  | some r, none => r.state
  | none, some v =>
    if v.action == actions.getD 0 "" then states.getLastD "" else states.getD 1 ""
  | none, none => states.getD 1 ""

/-- Embeds `DropPoint.get_visit_interval`:
`60 * c3bottles.config.get("BASE_VISIT_INTERVAL", 120)` (seconds). -/
def get_visit_interval (cfg : Config) : ℚ :=
  60 * cfg.BASE_VISIT_INTERVAL

/-- The `i = 0; for report in new_reports: priority += report.get_weight() / 2**i; i += 1`
loop of `DropPoint.get_priority_factor`, as the sum it adds to `priority`. -/
def reportWeightSum : List Report → Nat → ℚ
  | [], _ => 0
  | r :: rest, i => r.weight / 2 ^ i + reportWeightSum rest (i + 1)

/-- Embeds `DropPoint.get_priority_factor`. -/
def get_priority_factor (cfg : Config) (dp : DropPoint) : ℚ :=
  if dp.removed.isSome then 0
  else
    (cfg.DEFAULT_VISIT_PRIORITY + reportWeightSum (get_new_reports dp) 0) /
      (1 * get_visit_interval cfg)

/-- Embeds `DropPoint.get_priority_base_time`: the time of the last visit, or the
creation time if there is no visit. -/
def get_priority_base_time (dp : DropPoint) : ℚ :=
  match get_last_visit dp with
  | some v => v.time
  | none => dp.time

/-- Python's `round(x, 2)` (see the header note on the half-way tie). -/
def round2 (x : ℚ) : ℚ :=
  (Rat.floor (x * 100 + 1 / 2) : ℚ) / 100

/-- Embeds `DropPoint.get_priority`: the factor times the elapsed seconds since the
priority base time, rounded to two decimal places. -/
def get_priority (cfg : Config) (dp : DropPoint) (now : ℚ) : ℚ :=
  round2 (get_priority_factor cfg dp * (now - get_priority_base_time dp))

/-- The errors `DropPoint.remove` can raise (the `TypeError` for a non-datetime
argument is excluded by typing here). -/
inductive RemoveError
  | alreadyRemoved
  | futureTime
deriving DecidableEq

/-- Embeds `DropPoint.remove`: raise if already removed, raise if the given time is
in the future, otherwise set `removed` to the given time, defaulting to the
current time.  `now` stands for `datetime.today()`. -/
def DropPoint.remove (dp : DropPoint) (time : Option ℚ) (now : ℚ) :
    Except RemoveError DropPoint :=
  if dp.removed.isSome then .error .alreadyRemoved
  else match time with
    | some t =>
      if now < t then .error .futureTime
      else .ok { dp with removed := some t }
    | none => .ok { dp with removed := some now }

/-- The tagged events appended by `DropPoint.get_history` (the keys of the
dicts the Python code builds: `visit`, `report`, `location`, `drop_point`
for the creation entry, `removed`). -/
inductive HistTag
  | visit (v : Visit)
  | report (r : Report)
  | location (l : Location)
  | creation (number : Nat)
  | removed
deriving DecidableEq

/-- One entry of the history: the `time` key plus the tagged record. -/
structure HistEntry where
  time : ℚ
  tag : HistTag
deriving DecidableEq

/-- Holds iff the entry is a visit event. -/
def HistEntry.isVisitEv : HistEntry → Bool
  | ⟨_, .visit _⟩ => true
  | _ => false

/-- Holds iff the entry is a report event. -/
def HistEntry.isReportEv : HistEntry → Bool
  | ⟨_, .report _⟩ => true
  | _ => false

/-- Holds iff the entry is a location event. -/
def HistEntry.isLocationEv : HistEntry → Bool
  | ⟨_, .location _⟩ => true
  | _ => false

/-- Holds iff the entry is the creation event. -/
def HistEntry.isCreationEv : HistEntry → Bool
  | ⟨_, .creation _⟩ => true
  | _ => false

/-- Holds iff the entry is the removal event. -/
def HistEntry.isRemovedEv : HistEntry → Bool
  | ⟨_, .removed⟩ => true
  | _ => false

/-- The `history` list of `DropPoint.get_history` as built before sorting:
one entry per visit, one per report, one per location (the relationship is
time-ordered), the creation entry, and the removal entry if removed. -/
def historyAssembled (dp : DropPoint) : List HistEntry :=
  dp.visits.map (fun v => ⟨v.time, .visit v⟩)
    ++ dp.reports.map (fun r => ⟨r.time, .report r⟩)
    ++ (locationsOrdered dp).map (fun l => ⟨l.time, .location l⟩)
    ++ [⟨dp.time, .creation dp.number⟩]
    ++ (match dp.removed with
        | some t => [⟨t, .removed⟩]
        | none => [])

/-- Embeds `DropPoint.get_history`: the assembled entries sorted by time descending
(Python's `sorted(..., key=..., reverse=True)` is stable). -/
def get_history (dp : DropPoint) : List HistEntry :=
  sortDescBy HistEntry.time (historyAssembled dp)

/-! ## `Statistics.drop_points_by_state` (`src/c3bottles/lib/statistics.py`) -/

/-- The Python attribute access `dp.last_state` in
`Statistics.drop_points_by_state`.  The class `DropPoint` defines no attribute,
column, relationship or property named `last_state` (the state accessor is the
method `get_last_state`), so the lookup raises `AttributeError` on every
instance. -/
def lastStateAttr (_dp : DropPoint) : Except Unit String :=
  .error ()

/-- Embeds `ret[s] = ret[s] + 1 if s in ret else 1` on the association list standing
for the Python dict (unreachable in practice, see `lastStateAttr`). -/
def tallyIncr (ret : List (String × Nat)) (s : String) : List (String × Nat) :=
  if ret.any (fun p => p.1 == s) then
    ret.map (fun p => if p.1 == s then (p.1, p.2 + 1) else p)
  else ret ++ [(s, 1)]

/-- The `try:`-wrapped loop of `Statistics.drop_points_by_state`: tally the
`last_state` of each non-removed drop point; on the first exception the bare
`except: pass` leaves `ret` as accumulated so far and it is returned. -/
def tallyLoop : List DropPoint → List (String × Nat) → List (String × Nat)
  | [], ret => ret
  | dp :: rest, ret =>
    if dp.removed.isSome then tallyLoop rest ret
    else
      match lastStateAttr dp with
      | .error _ => ret
      | .ok s => tallyLoop rest (tallyIncr ret s)

/-- Embeds `Statistics.drop_points_by_state`: a dict with a zero entry per report
state, then the tally loop over all drop points.  `states` stands for
`Report.states` (see `get_last_state`). -/
def drop_points_by_state (states : List String) (dps : List DropPoint) :
    List (String × Nat) :=
  tallyLoop dps (states.map (fun s => (s, 0)))

/-! ## Lemmas about the stable sorts -/

theorem insertDescBy_perm (f : β → ℚ) (x : β) (l : List β) :
    (insertDescBy f x l).Perm (x :: l) := by
  induction l with
  | nil => exact List.Perm.refl _
  | cons y ys ih =>
    rw [insertDescBy]
    by_cases h : f y ≤ f x
    · rw [if_pos h]
    · rw [if_neg h]
      exact (List.Perm.cons y ih).trans (List.Perm.swap x y ys)

theorem sortDescBy_perm (f : β → ℚ) (l : List β) :
    (sortDescBy f l).Perm l := by
  induction l with
  | nil => exact List.Perm.refl _
  | cons x xs ih =>
    rw [sortDescBy]
    exact (insertDescBy_perm f x (sortDescBy f xs)).trans (List.Perm.cons x ih)

theorem mem_insertDescBy {f : β → ℚ} {x z : β} {l : List β} :
    z ∈ insertDescBy f x l ↔ z = x ∨ z ∈ l := by
  rw [(insertDescBy_perm f x l).mem_iff, List.mem_cons]

theorem insertDescBy_pairwise (f : β → ℚ) (x : β) (l : List β)
    (h : l.Pairwise (fun a b => f b ≤ f a)) :
    (insertDescBy f x l).Pairwise (fun a b => f b ≤ f a) := by
  induction l with
  | nil => simp [insertDescBy]
  | cons y ys ih =>
    rw [insertDescBy]
    rcases List.pairwise_cons.mp h with ⟨hy, hys⟩
    by_cases hc : f y ≤ f x
    · rw [if_pos hc]
      refine List.pairwise_cons.mpr ⟨?_, h⟩
      intro z hz
      rcases List.mem_cons.mp hz with rfl | hz
      · exact hc
      · exact le_trans (hy z hz) hc
    · rw [if_neg hc]
      refine List.pairwise_cons.mpr ⟨?_, ih hys⟩
      intro z hz
      rcases mem_insertDescBy.mp hz with rfl | hz
      · exact le_of_lt (lt_of_not_le hc)
      · exact hy z hz

theorem sortDescBy_pairwise (f : β → ℚ) (l : List β) :
    (sortDescBy f l).Pairwise (fun a b => f b ≤ f a) := by
  induction l with
  | nil => simp [sortDescBy]
  | cons x xs ih =>
    rw [sortDescBy]
    exact insertDescBy_pairwise f x _ ih

theorem insertDescBy_filter_key (f : β → ℚ) (t : ℚ) (x : β) (l : List β) :
    (insertDescBy f x l).filter (fun e => decide (f e = t)) =
      if f x = t then x :: l.filter (fun e => decide (f e = t))
      else l.filter (fun e => decide (f e = t)) := by
  induction l with
  | nil =>
    by_cases h : f x = t
    · simp [insertDescBy, List.filter, h]
    · simp [insertDescBy, List.filter, h]
  | cons y ys ih =>
    rw [insertDescBy]
    by_cases hc : f y ≤ f x
    · rw [if_pos hc]
      by_cases h : f x = t
      · simp [List.filter, h]
      · simp [List.filter, h]
    · rw [if_neg hc]
      have hxy : f x < f y := lt_of_not_le hc
      by_cases h : f x = t
      · have hy : ¬ (f y = t) := by
          intro he
          rw [h, he] at hxy
          exact lt_irrefl t hxy
        simp [List.filter, hy, ih, h]
      · by_cases hy : f y = t
        · simp [List.filter, hy, ih, h]
        · simp [List.filter, hy, ih, h]

theorem sortDescBy_filter_key (f : β → ℚ) (t : ℚ) (l : List β) :
    (sortDescBy f l).filter (fun e => decide (f e = t)) =
      l.filter (fun e => decide (f e = t)) := by
  induction l with
  | nil => rfl
  | cons x xs ih =>
    rw [sortDescBy, insertDescBy_filter_key]
    by_cases h : f x = t
    · simp [List.filter, h, ih]
    · simp [List.filter, h, ih]

theorem insertAscBy_perm (f : β → ℚ) (x : β) (l : List β) :
    (insertAscBy f x l).Perm (x :: l) := by
  induction l with
  | nil => exact List.Perm.refl _
  | cons y ys ih =>
    rw [insertAscBy]
    by_cases h : f x ≤ f y
    · rw [if_pos h]
    · rw [if_neg h]
      exact (List.Perm.cons y ih).trans (List.Perm.swap x y ys)

theorem sortAscBy_perm (f : β → ℚ) (l : List β) :
    (sortAscBy f l).Perm l := by
  induction l with
  | nil => exact List.Perm.refl _
  | cons x xs ih =>
    rw [sortAscBy]
    exact (insertAscBy_perm f x (sortAscBy f xs)).trans (List.Perm.cons x ih)

theorem mem_insertAscBy {f : β → ℚ} {x z : β} {l : List β} :
    z ∈ insertAscBy f x l ↔ z = x ∨ z ∈ l := by
  rw [(insertAscBy_perm f x l).mem_iff, List.mem_cons]

theorem insertAscBy_pairwise (f : β → ℚ) (x : β) (l : List β)
    (h : l.Pairwise (fun a b => f a ≤ f b)) :
    (insertAscBy f x l).Pairwise (fun a b => f a ≤ f b) := by
  induction l with
  | nil => simp [insertAscBy]
  | cons y ys ih =>
    rw [insertAscBy]
    rcases List.pairwise_cons.mp h with ⟨hy, hys⟩
    by_cases hc : f x ≤ f y
    · rw [if_pos hc]
      refine List.pairwise_cons.mpr ⟨?_, h⟩
      intro z hz
      rcases List.mem_cons.mp hz with rfl | hz
      · exact hc
      · exact le_trans hc (hy z hz)
    · rw [if_neg hc]
      refine List.pairwise_cons.mpr ⟨?_, ih hys⟩
      intro z hz
      rcases mem_insertAscBy.mp hz with rfl | hz
      · exact le_of_lt (lt_of_not_le hc)
      · exact hy z hz

theorem sortAscBy_pairwise (f : β → ℚ) (l : List β) :
    (sortAscBy f l).Pairwise (fun a b => f a ≤ f b) := by
  induction l with
  | nil => simp [sortAscBy]
  | cons x xs ih =>
    rw [sortAscBy]
    exact insertAscBy_pairwise f x _ ih

/-! ## Helper lemmas: rounding, maxima, the weight sum -/

theorem ratFloor_eq_intFloor (q : ℚ) : Rat.floor q = ⌊q⌋ := by
  rw [Rat.floor_def', Rat.floor_def]

theorem round2_zero : round2 0 = 0 := by
  rw [round2, ratFloor_eq_intFloor]
  norm_num

theorem round2_mono {x y : ℚ} (h : x ≤ y) : round2 x ≤ round2 y := by
  rw [round2, round2, ratFloor_eq_intFloor, ratFloor_eq_intFloor]
  have hf : ⌊x * 100 + 1 / 2⌋ ≤ ⌊y * 100 + 1 / 2⌋ :=
    Int.floor_le_floor (by linarith)
  have hq : ((⌊x * 100 + 1 / 2⌋ : ℤ) : ℚ) ≤ ((⌊y * 100 + 1 / 2⌋ : ℤ) : ℚ) := by
    exact_mod_cast hf
  linarith

theorem round2_nonpos {x : ℚ} (h : x ≤ 0) : round2 x ≤ 0 := by
  have := round2_mono h
  rw [round2_zero] at this
  exact this

theorem pairwise_le_getLast? (f : β → ℚ) :
    ∀ (l : List β) (y : β), l.Pairwise (fun a b => f a ≤ f b) →
      l.getLast? = some y → ∀ x ∈ l, f x ≤ f y := by
  intro l
  induction l with
  | nil => intro y _ hy x hx; cases hx
  | cons a as ih =>
    intro y hp hy x hx
    rcases List.pairwise_cons.mp hp with ⟨ha, has⟩
    cases as with
    | nil =>
      have hya : a = y := by simpa using hy
      have hxa : x = a := by simpa using hx
      rw [hxa, hya]
    | cons b bs =>
      rw [List.getLast?_cons_cons] at hy
      rcases List.mem_cons.mp hx with rfl | hx
      · have hyin : y ∈ b :: bs :=
          List.mem_of_mem_getLast? (Option.mem_iff.mpr hy)
        exact ha y hyin
      · exact ih y has hy x hx

theorem reportWeightSum_eq_sum (rs : List Report) :
    ∀ k : Nat, reportWeightSum rs k =
      ∑ i ∈ Finset.range rs.length, (rs.getD i default).weight / 2 ^ (k + i) := by
  induction rs with
  | nil => intro k; simp [reportWeightSum]
  | cons r rest ih =>
    intro k
    rw [reportWeightSum, List.length_cons, Finset.sum_range_succ']
    have he : ∀ i ∈ Finset.range rest.length,
        ((r :: rest).getD (i + 1) default).weight / 2 ^ (k + (i + 1)) =
          (rest.getD i default).weight / 2 ^ ((k + 1) + i) := by
      intro i _
      have : k + (i + 1) = (k + 1) + i := by omega
      simp [List.getD_cons_succ, this]
    rw [Finset.sum_congr rfl he, ← ih (k + 1)]
    simp [List.getD_cons_zero]
    ring

theorem reportWeightSum_nonneg (rs : List Report)
    (h : ∀ r ∈ rs, 0 ≤ r.weight) : ∀ k : Nat, 0 ≤ reportWeightSum rs k := by
  induction rs with
  | nil => intro k; simp [reportWeightSum]
  | cons r rest ih =>
    intro k
    rw [reportWeightSum]
    have h1 : 0 ≤ r.weight := h r (List.mem_cons_self r rest)
    have h2 : 0 ≤ reportWeightSum rest (k + 1) :=
      ih (fun x hx => h x (List.mem_cons_of_mem r hx)) (k + 1)
    have h3 : (0:ℚ) ≤ r.weight / 2 ^ k :=
      div_nonneg h1 (by positivity)
    linarith

theorem stateVisitLoop_of_exists (emptyAction serviced fallback : String)
    (l : List Visit) (h : ∃ v ∈ l, v.action = emptyAction) :
    stateVisitLoop emptyAction serviced fallback l = serviced := by
  induction l with
  | nil => rcases h with ⟨v, hv, _⟩; cases hv
  | cons v rest ih =>
    rw [stateVisitLoop]
    by_cases hc : v.action == emptyAction
    · rw [if_pos hc]
    · rw [if_neg hc]
      rcases h with ⟨w, hw, hwa⟩
      rcases List.mem_cons.mp hw with rfl | hw
      · exact absurd (beq_iff_eq.mpr hwa) hc
      · exact ih ⟨w, hw, hwa⟩

theorem stateVisitLoop_of_none (emptyAction serviced fallback : String)
    (l : List Visit) (h : ∀ v ∈ l, v.action ≠ emptyAction) :
    stateVisitLoop emptyAction serviced fallback l = fallback := by
  induction l with
  | nil => rfl
  | cons v rest ih =>
    rw [stateVisitLoop]
    have hv : ¬ (v.action == emptyAction) := by
      simpa using h v (List.mem_cons_self v rest)
    rw [if_neg hv]
    exact ih (fun w hw => h w (List.mem_cons_of_mem v hw))

/-! ## Claim theorems -/

/-- C2: for every drop point whose `removed` timestamp is set, the priority
computation returns factor 0 and score 0, regardless of its report and visit
history and of the configuration values. -/
theorem c2_removed_zero_priority (cfg : Config) (dp : DropPoint) (now t : ℚ)
    (h : dp.removed = some t) :
    get_priority_factor cfg dp = 0 ∧ get_priority cfg dp now = 0 := by
  have hf : get_priority_factor cfg dp = 0 := by
    simp only [get_priority_factor, h, Option.isSome_some, if_true]
  exact ⟨hf, by rw [get_priority, hf, zero_mul, round2_zero]⟩

/-- Witness for C2: a removed drop point with reports and visits has factor
and score 0. -/
def dpRemoved : DropPoint :=
  { time := 0, removed := some 500,
    reports := [⟨50, "FULL", 4⟩], visits := [⟨20, "EMPTIED"⟩] }

theorem c2_removed_zero_priority_witness :
    dpRemoved.removed = some 500
    ∧ get_priority_factor { BASE_VISIT_INTERVAL := 7, DEFAULT_VISIT_PRIORITY := 3 } dpRemoved = 0
    ∧ get_priority { BASE_VISIT_INTERVAL := 7, DEFAULT_VISIT_PRIORITY := 3 } dpRemoved 1000 = 0 :=
  ⟨rfl, c2_removed_zero_priority _ dpRemoved 1000 500 rfl⟩

/-- C4: when the last report is at least as recent as the last visit
(including exact timestamp equality), the resolved state is the last report's
state, regardless of any visit actions. -/
theorem c4_report_wins (states actions : List String) (dp : DropPoint)
    (r : Report) (v : Visit) (hr : get_last_report dp = some r)
    (hv : get_last_visit dp = some v) (hle : v.time ≤ r.time) :
    get_last_state states actions dp = r.state := by
  simp only [get_last_state, hr, hv]
  rw [if_neg (not_lt.mpr hle)]

/-- Witness for C4: a report and a visit with the very same timestamp, the
visit having the emptying action; the reported state prevails. -/
def dpTie : DropPoint :=
  { time := 0, reports := [⟨100, "FULL", 4⟩], visits := [⟨100, "EMPTY"⟩] }

theorem c4_report_wins_witness :
    get_last_report dpTie = some ⟨100, "FULL", 4⟩
    ∧ get_last_visit dpTie = some ⟨100, "EMPTY"⟩
    ∧ (100:ℚ) ≤ 100
    ∧ get_last_state ["A", "B", "C"] ["EMPTY", "OTHER"] dpTie = "FULL" :=
  ⟨rfl, rfl, le_refl _,
    c4_report_wins ["A", "B", "C"] ["EMPTY", "OTHER"] dpTie _ _ rfl rfl (le_refl _)⟩

/-- C3: when both a last report `R` and a last visit strictly newer than `R`
exist, the resolved state is the serviced state (`Report.states[-1]`) exactly
if some visit strictly newer than `R` has the emptying action
(`Visit.actions[0]`), and `R`'s reported state otherwise. -/
theorem c3_emptying_override (states actions : List String) (dp : DropPoint)
    (r : Report) (v : Visit) (hr : get_last_report dp = some r)
    (hv : get_last_visit dp = some v) (hlt : r.time < v.time) :
    ((∃ vv ∈ dp.visits, r.time < vv.time ∧ vv.action = actions.getD 0 "") →
        get_last_state states actions dp = states.getLastD "")
    ∧ ((∀ vv ∈ dp.visits, r.time < vv.time → vv.action ≠ actions.getD 0 "") →
        get_last_state states actions dp = r.state) := by
  have hunf : get_last_state states actions dp =
      stateVisitLoop (actions.getD 0 "") (states.getLastD "") r.state
        (sortDescBy Visit.time (dp.visits.filter (fun vv => decide (r.time < vv.time)))) := by
    simp only [get_last_state, hr, hv]
    rw [if_pos hlt]
  constructor
  · rintro ⟨vv, hvv, hvt, hva⟩
    rw [hunf]
    apply stateVisitLoop_of_exists
    refine ⟨vv, ?_, hva⟩
    rw [(sortDescBy_perm _ _).mem_iff, List.mem_filter]
    exact ⟨hvv, by simpa using hvt⟩
  · intro hall
    rw [hunf]
    apply stateVisitLoop_of_none
    intro w hw
    rw [(sortDescBy_perm _ _).mem_iff, List.mem_filter] at hw
    exact hall w hw.1 (by simpa using hw.2)

/-- Witness for C3: a severe report at time 100, a non-emptying visit at 150
and an emptying visit at 200; the emptying visit forces the serviced state. -/
def dpServiced : DropPoint :=
  { time := 0, reports := [⟨100, "FULL", 4⟩],
    visits := [⟨150, "OTHER"⟩, ⟨200, "EMPTY"⟩] }

theorem c3_emptying_override_witness :
    get_last_report dpServiced = some ⟨100, "FULL", 4⟩
    ∧ get_last_visit dpServiced = some ⟨200, "EMPTY"⟩
    ∧ (100:ℚ) < 200
    ∧ get_last_state ["A", "B", "C"] ["EMPTY", "OTHER"] dpServiced = "C" := by
  refine ⟨rfl, rfl, by norm_num, ?_⟩
  have h := (c3_emptying_override ["A", "B", "C"] ["EMPTY", "OTHER"] dpServiced
      ⟨100, "FULL", 4⟩ ⟨200, "EMPTY"⟩ rfl rfl (by norm_num)).1
  exact h ⟨⟨200, "EMPTY"⟩, by simp [dpServiced], by norm_num, rfl⟩

/-- The `try:` loop of `Statistics.drop_points_by_state` never changes the
tally: the very first non-removed drop point raises `AttributeError` before
any increment, and removed drop points are skipped. -/
theorem tallyLoop_eq (dps : List DropPoint) :
    ∀ ret : List (String × Nat), tallyLoop dps ret = ret := by
  induction dps with
  | nil => intro ret; rfl
  | cons dp rest ih =>
    intro ret
    rw [tallyLoop]
    by_cases h : dp.removed.isSome
    · rw [if_pos h]
      exact ih ret
    · rw [if_neg h]
      rfl

/-- C10: `Statistics.drop_points_by_state` returns the dictionary mapping
every report state to 0 for every store state: the loop reads the attribute
`last_state`, which the class `DropPoint` does not define (the method is
`get_last_state`), and the resulting `AttributeError` is swallowed by the
bare `except`, so the pre-filled zero counts are returned unchanged. -/
theorem c10_statistics_all_zero (states : List String) (dps : List DropPoint) :
    drop_points_by_state states dps = states.map (fun s => (s, 0)) := by
  rw [drop_points_by_state]
  exact tallyLoop_eq dps _

/-- C1: for every non-removed drop point the priority factor equals
`(B + Σ_i weight(newReports[i]) / 2^i) / visit_interval_seconds` where the new
reports are exactly the reports strictly newer than the last visit (all
reports without a visit) ordered newest first, `B` is the configured base
priority (default 1) and the interval is 60 times the configured minutes
(default 120); and the score is the factor times the seconds elapsed since
the last visit (or creation), rounded to two decimals. -/
theorem c1_priority_formula (cfg : Config) (dp : DropPoint) (now : ℚ)
    (h : dp.removed = none) :
    get_priority_factor cfg dp =
        (cfg.DEFAULT_VISIT_PRIORITY +
          ∑ i ∈ Finset.range (get_new_reports dp).length,
            ((get_new_reports dp).getD i default).weight / 2 ^ i) /
          (60 * cfg.BASE_VISIT_INTERVAL)
    ∧ (get_new_reports dp).Perm
        (match get_last_visit dp with
         | some v => dp.reports.filter (fun r => decide (v.time < r.time))
         | none => dp.reports)
    ∧ (get_new_reports dp).Pairwise (fun a b => b.time ≤ a.time)
    ∧ get_priority cfg dp now =
        round2 (get_priority_factor cfg dp *
          (now - (match get_last_visit dp with
                  | some v => v.time
                  | none => dp.time)))
    ∧ ({} : Config).DEFAULT_VISIT_PRIORITY = 1
    ∧ ({} : Config).BASE_VISIT_INTERVAL = 120 := by
  refine ⟨?_, ?_, ?_, ?_, rfl, rfl⟩
  · simp only [get_priority_factor, h, Option.isSome_none, Bool.false_eq_true,
      if_false, get_visit_interval, one_mul]
    rw [reportWeightSum_eq_sum]
    simp [zero_add]
  · rw [get_new_reports]
    cases hlv : get_last_visit dp with
    | none => exact sortDescBy_perm _ _
    | some v => exact sortDescBy_perm _ _
  · rw [get_new_reports]
    cases hlv : get_last_visit dp with
    | none => exact sortDescBy_pairwise _ _
    | some v => exact sortDescBy_pairwise _ _
  · rw [get_priority, get_priority_base_time]

/-- Witness for C1: default configuration, one visit at 100 and reports at
50, 150 and 250 (so the new reports are those at 250 and 150). -/
def dpBusy : DropPoint :=
  { time := 0,
    reports := [⟨50, "OK", 1⟩, ⟨150, "SOME", 2⟩, ⟨250, "FULL", 4⟩],
    visits := [⟨100, "EMPTY"⟩] }

theorem c1_priority_formula_witness :
    dpBusy.removed = none
    ∧ get_priority {} dpBusy 400 =
        round2 (get_priority_factor {} dpBusy *
          (400 - (match get_last_visit dpBusy with
                  | some v => v.time
                  | none => dpBusy.time))) :=
  ⟨rfl, (c1_priority_formula {} dpBusy 400 rfl).2.2.2.1⟩

/-- Counterexample to C7: a drop point created at time 100 is removed with
the explicit removal time 50, which precedes its creation time; `remove`
succeeds and sets `removed := 50` instead of raising an error. -/
def dpLateCreated : DropPoint := { time := 100 }

theorem c7_counterexample :
    dpLateCreated.removed = none
    ∧ (50:ℚ) < dpLateCreated.time
    ∧ DropPoint.remove dpLateCreated (some 50) 200 =
        .ok { dpLateCreated with removed := some 50 } := by
  refine ⟨rfl, by norm_num [dpLateCreated], ?_⟩
  rfl

/-- C7 as amended: `remove` raises (leaving the drop point unchanged) when
the drop point is already removed — so `removed` is never cleared or
overwritten — and when the given removal time is strictly in the future;
otherwise it sets `removed` to the given time, or to the current time when
none is given.  The code performs no check of the removal time against the
creation time. -/
theorem c7_remove_amended (dp : DropPoint) (time0 : Option ℚ) (now : ℚ) :
    (dp.removed.isSome = true →
        DropPoint.remove dp time0 now = .error .alreadyRemoved)
    ∧ (∀ t, dp.removed = none → time0 = some t → now < t →
        DropPoint.remove dp time0 now = .error .futureTime)
    ∧ (∀ t, dp.removed = none → time0 = some t → t ≤ now →
        DropPoint.remove dp time0 now = .ok { dp with removed := some t })
    ∧ (dp.removed = none → time0 = none →
        DropPoint.remove dp time0 now = .ok { dp with removed := some now }) := by
  refine ⟨?_, ?_, ?_, ?_⟩
  · intro h
    rw [DropPoint.remove.eq_def, if_pos h]
  · intro t hrem ht hfut
    rw [DropPoint.remove.eq_def, if_neg (by rw [hrem]; simp), ht]
    simp only [if_pos hfut]
  · intro t hrem ht hle
    rw [DropPoint.remove.eq_def, if_neg (by rw [hrem]; simp), ht]
    simp only [if_neg (not_lt.mpr hle)]
  · intro hrem ht
    rw [DropPoint.remove.eq_def, if_neg (by rw [hrem]; simp), ht]

/-- Witness for the amended C7: all four branches at concrete inputs. -/
theorem c7_remove_amended_witness :
    DropPoint.remove dpRemoved (some 600) 1000 = .error .alreadyRemoved
    ∧ DropPoint.remove dpLateCreated (some 300) 200 = .error .futureTime
    ∧ DropPoint.remove dpLateCreated (some 150) 200 =
        .ok { dpLateCreated with removed := some 150 }
    ∧ DropPoint.remove dpLateCreated none 200 =
        .ok { dpLateCreated with removed := some 200 } :=
  ⟨(c7_remove_amended dpRemoved (some 600) 1000).1 rfl,
    (c7_remove_amended dpLateCreated (some 300) 200).2.1 300 rfl rfl (by norm_num),
    (c7_remove_amended dpLateCreated (some 150) 200).2.2.1 150 rfl rfl (by norm_num),
    (c7_remove_amended dpLateCreated none 200).2.2.2 rfl rfl⟩

/-- Counterexample to C9: a drop point with locations at times 10 and 1000.
At `now = 100` the location with the greatest time `≤ now` is the one at
time 10, but `get_current_location` returns the location at time 1000 — a
location with a timestamp in the future of `now` is returned. -/
def dpFutureLoc : DropPoint :=
  { time := 0, locations := [⟨10, 0⟩, ⟨1000, 1⟩] }

theorem c9_counterexample :
    get_current_location dpFutureLoc = some ⟨1000, 1⟩
    ∧ (⟨10, 0⟩ : Location) ∈ dpFutureLoc.locations
    ∧ (10:ℚ) ≤ 100
    ∧ (100:ℚ) < 1000 := by
  refine ⟨rfl, by simp [dpFutureLoc], by norm_num, by norm_num⟩

/-- C9 as amended: `get_current_location` returns `None` exactly when the
drop point has no locations, and otherwise returns a location of the drop
point whose time is the greatest among all its locations — with no filtering
to times `≤ now`, so a location with a future timestamp is returned as the
current location. -/
theorem c9_current_location_amended (dp : DropPoint) :
    (get_current_location dp = none ↔ dp.locations = [])
    ∧ (∀ l, get_current_location dp = some l →
        l ∈ dp.locations ∧ ∀ l2 ∈ dp.locations, l2.time ≤ l.time) := by
  constructor
  · rw [get_current_location, List.getLast?_eq_none_iff]
    constructor
    · intro h
      exact ((sortAscBy_perm Location.time dp.locations).symm.trans
        (by rw [locationsOrdered] at h; rw [h])).eq_nil
    · intro h
      rw [locationsOrdered, h]
      rfl
  · intro l hl
    rw [get_current_location] at hl
    have hmem : l ∈ locationsOrdered dp :=
      List.mem_of_mem_getLast? (Option.mem_iff.mpr hl)
    constructor
    · exact (sortAscBy_perm Location.time dp.locations).mem_iff.mp hmem
    · intro l2 hl2
      exact pairwise_le_getLast? Location.time (locationsOrdered dp) l
        (sortAscBy_pairwise Location.time dp.locations) hl l2
        ((sortAscBy_perm Location.time dp.locations).mem_iff.mpr hl2)

/-- Witness for the amended C9: on `dpFutureLoc` the returned location is a
member and has the maximal time among the locations. -/
theorem c9_current_location_amended_witness :
    (⟨1000, 1⟩ : Location) ∈ dpFutureLoc.locations
    ∧ ∀ l2 ∈ dpFutureLoc.locations, l2.time ≤ (⟨1000, 1⟩ : Location).time :=
  (c9_current_location_amended dpFutureLoc).2 ⟨1000, 1⟩ rfl

/-- The count of entries satisfying `p` in the assembled history, split over
its five parts. -/
theorem countP_historyAssembled (dp : DropPoint) (p : HistEntry → Bool) :
    (historyAssembled dp).countP p =
      dp.visits.countP (fun v => p ⟨v.time, .visit v⟩)
      + dp.reports.countP (fun r => p ⟨r.time, .report r⟩)
      + dp.locations.countP (fun l => p ⟨l.time, .location l⟩)
      + (if p ⟨dp.time, .creation dp.number⟩ then 1 else 0)
      + (match dp.removed with
         | some t => if p ⟨t, .removed⟩ then 1 else 0
         | none => 0) := by
  rw [historyAssembled]
  simp only [List.countP_append, List.countP_map, Function.comp_def]
  have hloc : (locationsOrdered dp).countP (fun l => p ⟨l.time, .location l⟩) =
      dp.locations.countP (fun l => p ⟨l.time, .location l⟩) :=
    (sortAscBy_perm Location.time dp.locations).countP_eq _
  rw [hloc]
  cases hr : dp.removed <;>
    simp [List.countP_cons, List.countP_nil]

/-- C8: the history projection is a permutation of the assembled event list
(one event per visit, per report and per location, plus exactly one creation
event, plus one removal event exactly when the drop point is removed), is
sorted by timestamp descending, and for each fixed timestamp the entries with
that timestamp appear in exactly the order of the assembled list — the sort
is stable, so repeated calls on the same histories produce the same relative
order for records sharing a timestamp. -/
theorem c8_history_projection (dp : DropPoint) :
    (get_history dp).Perm (historyAssembled dp)
    ∧ (get_history dp).Pairwise (fun a b => b.time ≤ a.time)
    ∧ (∀ t : ℚ, (get_history dp).filter (fun e => decide (e.time = t)) =
        (historyAssembled dp).filter (fun e => decide (e.time = t)))
    ∧ (get_history dp).countP HistEntry.isVisitEv = dp.visits.length
    ∧ (get_history dp).countP HistEntry.isReportEv = dp.reports.length
    ∧ (get_history dp).countP HistEntry.isLocationEv = dp.locations.length
    ∧ (get_history dp).countP HistEntry.isCreationEv = 1
    ∧ (get_history dp).countP HistEntry.isRemovedEv =
        (if dp.removed.isSome then 1 else 0) := by
  have hperm : (get_history dp).Perm (historyAssembled dp) :=
    sortDescBy_perm HistEntry.time (historyAssembled dp)
  have hcount : ∀ p : HistEntry → Bool,
      (get_history dp).countP p = (historyAssembled dp).countP p :=
    fun p => hperm.countP_eq p
  refine ⟨hperm, sortDescBy_pairwise _ _,
    fun t => sortDescBy_filter_key _ t _, ?_, ?_, ?_, ?_, ?_⟩
  · rw [hcount, countP_historyAssembled]
    have e1 : (fun v : Visit => HistEntry.isVisitEv ⟨v.time, .visit v⟩) =
        fun _ => true := funext fun _ => rfl
    have e2 : (fun r : Report => HistEntry.isVisitEv ⟨r.time, .report r⟩) =
        fun _ => false := funext fun _ => rfl
    have e3 : (fun l : Location => HistEntry.isVisitEv ⟨l.time, .location l⟩) =
        fun _ => false := funext fun _ => rfl
    rw [e1, e2, e3]
    cases hr : dp.removed <;>
      simp [List.countP_true, List.countP_false, HistEntry.isVisitEv]
  · rw [hcount, countP_historyAssembled]
    have e1 : (fun v : Visit => HistEntry.isReportEv ⟨v.time, .visit v⟩) =
        fun _ => false := funext fun _ => rfl
    have e2 : (fun r : Report => HistEntry.isReportEv ⟨r.time, .report r⟩) =
        fun _ => true := funext fun _ => rfl
    have e3 : (fun l : Location => HistEntry.isReportEv ⟨l.time, .location l⟩) =
        fun _ => false := funext fun _ => rfl
    rw [e1, e2, e3]
    cases hr : dp.removed <;>
      simp [List.countP_true, List.countP_false, HistEntry.isReportEv]
  · rw [hcount, countP_historyAssembled]
    have e1 : (fun v : Visit => HistEntry.isLocationEv ⟨v.time, .visit v⟩) =
        fun _ => false := funext fun _ => rfl
    have e2 : (fun r : Report => HistEntry.isLocationEv ⟨r.time, .report r⟩) =
        fun _ => false := funext fun _ => rfl
    have e3 : (fun l : Location => HistEntry.isLocationEv ⟨l.time, .location l⟩) =
        fun _ => true := funext fun _ => rfl
    rw [e1, e2, e3]
    cases hr : dp.removed <;>
      simp [List.countP_true, List.countP_false, HistEntry.isLocationEv]
  · rw [hcount, countP_historyAssembled]
    have e1 : (fun v : Visit => HistEntry.isCreationEv ⟨v.time, .visit v⟩) =
        fun _ => false := funext fun _ => rfl
    have e2 : (fun r : Report => HistEntry.isCreationEv ⟨r.time, .report r⟩) =
        fun _ => false := funext fun _ => rfl
    have e3 : (fun l : Location => HistEntry.isCreationEv ⟨l.time, .location l⟩) =
        fun _ => false := funext fun _ => rfl
    rw [e1, e2, e3]
    cases hr : dp.removed <;>
      simp [List.countP_true, List.countP_false, HistEntry.isCreationEv]
  · rw [hcount, countP_historyAssembled]
    have e1 : (fun v : Visit => HistEntry.isRemovedEv ⟨v.time, .visit v⟩) =
        fun _ => false := funext fun _ => rfl
    have e2 : (fun r : Report => HistEntry.isRemovedEv ⟨r.time, .report r⟩) =
        fun _ => false := funext fun _ => rfl
    have e3 : (fun l : Location => HistEntry.isRemovedEv ⟨l.time, .location l⟩) =
        fun _ => false := funext fun _ => rfl
    rw [e1, e2, e3]
    cases hr : dp.removed <;>
      simp [List.countP_true, List.countP_false, HistEntry.isRemovedEv]

/-- A drop point with no reports, no visits, no locations, created at 0. -/
def dpPlain : DropPoint := { time := 0 }

/-- Counterexample to C5: with the default configuration (base priority 1,
interval 120 minutes) and a drop point created at time 0 with no history,
the scores at `now = 7200` and `now = 7201` are both 1.00 — rounding to two
decimal places destroys strict monotonicity, so the score is not strictly
increasing in elapsed time. -/
theorem c5_counterexample :
    (0:ℚ) < ({} : Config).DEFAULT_VISIT_PRIORITY
    ∧ dpPlain.reports = [] ∧ dpPlain.visits = [] ∧ dpPlain.removed = none
    ∧ dpPlain.time ≤ 7200 ∧ (7200:ℚ) < 7201
    ∧ get_priority {} dpPlain 7200 = 1
    ∧ get_priority {} dpPlain 7201 = 1
    ∧ ¬ (get_priority {} dpPlain 7200 < get_priority {} dpPlain 7201) := by
  have hfac : get_priority_factor {} dpPlain = 1 / 7200 := by
    simp only [get_priority_factor, get_new_reports, get_last_visit, get_visit_interval,
      dpPlain, sortDescBy, List.head?, reportWeightSum]
    norm_num
  have hbase : get_priority_base_time dpPlain = 0 := by
    simp only [get_priority_base_time, get_last_visit, dpPlain, sortDescBy, List.head?]
  have h1 : get_priority {} dpPlain 7200 = 1 := by
    rw [get_priority, hfac, hbase, round2, ratFloor_eq_intFloor]
    norm_num
  have h2 : get_priority {} dpPlain 7201 = 1 := by
    rw [get_priority, hfac, hbase, round2, ratFloor_eq_intFloor]
    norm_num
  refine ⟨by norm_num, rfl, rfl, rfl, by norm_num [dpPlain], by norm_num, h1, h2, ?_⟩
  rw [h1, h2]
  exact lt_irrefl 1

/-- C5 as amended: for a non-removed drop point with no reports and no
visits, the resolved state is the default state (`Report.states[1]`) and,
for strictly positive configured base priority and strictly positive
configured interval, the priority factor is strictly positive, the
un-rounded priority `factor * elapsed` grows strictly with `now`, and the
rounded score is monotonically non-decreasing in `now` (strictness of the
rounded score is lost to the two-decimal rounding, see the
counterexample). -/
theorem c5_monotonicity_amended (states actions : List String) (cfg : Config)
    (dp : DropPoint) (hrep : dp.reports = []) (hvis : dp.visits = [])
    (hrem : dp.removed = none) (hB : 0 < cfg.DEFAULT_VISIT_PRIORITY)
    (hI : 0 < cfg.BASE_VISIT_INTERVAL) (now1 now2 : ℚ)
    (_hc : dp.time ≤ now1) (hlt : now1 < now2) :
    get_last_state states actions dp = states.getD 1 ""
    ∧ 0 < get_priority_factor cfg dp
    ∧ get_priority_factor cfg dp * (now1 - get_priority_base_time dp) <
        get_priority_factor cfg dp * (now2 - get_priority_base_time dp)
    ∧ get_priority cfg dp now1 ≤ get_priority cfg dp now2 := by
  have hlr : get_last_report dp = none := by
    rw [get_last_report, hrep]
    rfl
  have hlv : get_last_visit dp = none := by
    rw [get_last_visit, hvis]
    rfl
  have hstate : get_last_state states actions dp = states.getD 1 "" := by
    simp only [get_last_state, hlr, hlv]
  have hgnr : get_new_reports dp = [] := by
    rw [get_new_reports, hlv, hrep]
    rfl
  have hfac : 0 < get_priority_factor cfg dp := by
    rw [get_priority_factor, hrem]
    simp only [Option.isSome_none, Bool.false_eq_true, if_false, hgnr, reportWeightSum,
      add_zero, one_mul, get_visit_interval]
    exact div_pos hB (by linarith)
  have hstrict : get_priority_factor cfg dp * (now1 - get_priority_base_time dp) <
      get_priority_factor cfg dp * (now2 - get_priority_base_time dp) :=
    mul_lt_mul_of_pos_left (by linarith) hfac
  exact ⟨hstate, hfac, hstrict,
    round2_mono (le_of_lt hstrict)⟩

/-- Witness for the amended C5: the default configuration and `dpPlain`,
at `now1 = 10 < now2 = 20`. -/
theorem c5_monotonicity_amended_witness :
    get_last_state ["A", "B", "C"] ["EMPTY"] dpPlain = "B"
    ∧ get_priority {} dpPlain 10 ≤ get_priority {} dpPlain 20 := by
  have h := c5_monotonicity_amended ["A", "B", "C"] ["EMPTY"] {} dpPlain
    rfl rfl rfl (by norm_num) (by norm_num) 10 20 (by norm_num [dpPlain]) (by norm_num)
  exact ⟨h.1, h.2.2.2⟩

/-- Every new report is one of the drop point's reports. -/
theorem mem_get_new_reports {dp : DropPoint} {r : Report}
    (h : r ∈ get_new_reports dp) : r ∈ dp.reports := by
  rw [get_new_reports] at h
  cases hlv : get_last_visit dp with
  | none =>
    rw [hlv] at h
    exact (sortDescBy_perm Report.time dp.reports).mem_iff.mp h
  | some v =>
    rw [hlv] at h
    have := (sortDescBy_perm Report.time _).mem_iff.mp h
    exact (List.mem_filter.mp this).1

/-- The configuration with a negative interval used in the C6
counterexample. -/
def cfgNegative : Config := { BASE_VISIT_INTERVAL := -120 }

/-- Counterexample to C6: with `BASE_VISIT_INTERVAL = -120` (non-positive)
the priority computation does not reject: it silently returns the negative
factor `-1/7200` and, at `now = 7200` for a drop point created at 0 with no
history, the negative score `-1.0`. -/
theorem c6_counterexample :
    cfgNegative.BASE_VISIT_INTERVAL ≤ 0
    ∧ get_priority_factor cfgNegative dpPlain = -(1 / 7200)
    ∧ get_priority_factor cfgNegative dpPlain < 0
    ∧ get_priority cfgNegative dpPlain 7200 = -1
    ∧ get_priority cfgNegative dpPlain 7200 < 0 := by
  have hfac : get_priority_factor cfgNegative dpPlain = -(1 / 7200) := by
    simp only [get_priority_factor, get_new_reports, get_last_visit, get_visit_interval,
      dpPlain, cfgNegative, sortDescBy, List.head?, reportWeightSum]
    norm_num
  have hbase : get_priority_base_time dpPlain = 0 := by
    simp only [get_priority_base_time, get_last_visit, dpPlain, sortDescBy, List.head?]
  have hsc : get_priority cfgNegative dpPlain 7200 = -1 := by
    rw [get_priority, hfac, hbase, round2, ratFloor_eq_intFloor]
    norm_num
  refine ⟨by norm_num [cfgNegative], hfac, ?_, hsc, ?_⟩
  · rw [hfac]
    norm_num
  · rw [hsc]
    norm_num

/-- C6 as amended: the code performs no validation of the visit interval and
never raises before the division.  With a strictly negative configured
interval (and positive base priority and non-negative report weights) the
factor of a non-removed drop point is silently strictly negative, and every
score at or after the base time is non-positive; a zero interval leads to a
division by zero at the division itself rather than to a prior configuration
error. -/
theorem c6_no_validation_amended (cfg : Config) (dp : DropPoint)
    (hI : cfg.BASE_VISIT_INTERVAL < 0) (hB : 0 < cfg.DEFAULT_VISIT_PRIORITY)
    (hw : ∀ r ∈ dp.reports, 0 ≤ r.weight) (hrem : dp.removed = none) :
    get_priority_factor cfg dp < 0
    ∧ ∀ now : ℚ, get_priority_base_time dp ≤ now → get_priority cfg dp now ≤ 0 := by
  have hnum : 0 < cfg.DEFAULT_VISIT_PRIORITY + reportWeightSum (get_new_reports dp) 0 := by
    have hs : 0 ≤ reportWeightSum (get_new_reports dp) 0 :=
      reportWeightSum_nonneg _ (fun r hr => hw r (mem_get_new_reports hr)) 0
    linarith
  have hden : 1 * get_visit_interval cfg < 0 := by
    rw [get_visit_interval, one_mul]
    linarith
  have hfac : get_priority_factor cfg dp < 0 := by
    rw [get_priority_factor, hrem]
    simp only [Option.isSome_none, Bool.false_eq_true, if_false]
    exact div_neg_of_pos_of_neg hnum hden
  refine ⟨hfac, fun now hnow => ?_⟩
  rw [get_priority]
  apply round2_nonpos
  have : 0 ≤ now - get_priority_base_time dp := by linarith
  exact mul_nonpos_iff.mpr (Or.inr ⟨le_of_lt hfac, this⟩)

/-- Witness for the amended C6: `cfgNegative` and `dpPlain` at `now = 7200`. -/
theorem c6_no_validation_amended_witness :
    get_priority_factor cfgNegative dpPlain < 0
    ∧ get_priority cfgNegative dpPlain 7200 ≤ 0 := by
  have h := c6_no_validation_amended cfgNegative dpPlain (by norm_num [cfgNegative])
    (by norm_num [cfgNegative]) (by intro r hr; cases hr) rfl
  exact ⟨h.1, h.2 7200 (by norm_num [get_priority_base_time, get_last_visit, dpPlain,
    sortDescBy, List.head?])⟩
